import Mathlib

/-!
Verification of the tool-call orchestration core of the oll CLI
(meinside/oll).  Go sources are shallowly embedded: slices become lists,
structs become structures, the per-fragment streaming callback becomes a
state-transition function, and external effects (operator input, executable
output, remote tool results) become explicit environment inputs.  Machine
integers never overflow in the modelled code paths, so Nat is used directly.
-/

namespace Oll

/-! ## Data model: history messages (api.Message) -/

/-- Embeds ollama api.Message as used by the orchestration core:
a role string and a content string (image attachments never influence the
modelled logic). -/
structure Message where
  role : String
  content : String
deriving DecidableEq, Repr

/-- Embeds appendUserMessageToPastGenerations (helpers.go): appends one
user-role message carrying the given text. -/
def appendUserMessageToPastGenerations (history : List Message) (message : String) : List Message :=
  history ++ [⟨"user", message⟩]

/-- Embeds appendModelResponseToPastGenerations (helpers.go).  The Go code
takes a BY-VALUE copy of the last element (last := history[len(history)-1]),
appends to the copy's Content field, and never writes the copy back, so in
the assistant-tail branch the returned slice is the unchanged input. -/
def appendModelResponseToPastGenerations (history : List Message) (generated : String) : List Message :=
  match history.getLast? with
  | some last =>
    if last.role = "assistant" then
      history
    else
      history ++ [⟨"assistant", generated⟩]
  | none => [⟨"assistant", generated⟩]

/-- Embeds historyEndsWithUsers (helpers.go): true iff the history is
non-empty and its last message has role user. -/
def historyEndsWithUsers (history : List Message) : Bool :=
  match history.getLast? with
  | some last => last.role = "user"
  | none => false

/-! ## Go string helpers (strings.TrimSpace / ToLower / HasPrefix / Contains) -/

/-- Whitespace predicate of unicode.IsSpace restricted to the ASCII range,
which covers every character the modelled call sites feed it. -/
def goIsSpace (c : Char) : Bool :=
  c = ' ' || c = '\t' || c = '\n' || c = '\x0b' || c = '\x0c' || c = '\r'

/-- Embeds strings.TrimSpace: drop whitespace from both ends. -/
def goTrimSpace (s : String) : String :=
  ⟨((s.data.dropWhile goIsSpace).reverse.dropWhile goIsSpace).reverse⟩

/-- Embeds strings.TrimLeft for whitespace; used only to state the
leading-only-stripping reading of the spec, the code itself never trims
only one side. -/
def goTrimLeftSpace (s : String) : String :=
  ⟨s.data.dropWhile goIsSpace⟩

/-- Case folding of strings.ToLower: ASCII uppercase letters (code points
65-90) move down by 32, everything else is unchanged (the modelled call
sites only meet ASCII). -/
def goToLowerChar (c : Char) : Char :=
  if 65 ≤ c.toNat ∧ c.toNat ≤ 90 then Char.ofNat (c.toNat + 32) else c

/-- Embeds strings.ToLower. -/
def goToLower (s : String) : String :=
  ⟨s.data.map goToLowerChar⟩

/-- Embeds strings.HasPrefix. -/
def goStartsWith (s pre : String) : Bool :=
  pre.data.isPrefixOf s.data

/-- Embeds strings.Contains: the needle occurs contiguously inside the
haystack. -/
def goContains (s sub : String) : Bool :=
  decide (sub.data <:+: s.data)

/-- Embeds strings.CutPrefix. -/
def goCutPrefix (s pre : String) : Option String :=
  if pre.data.isPrefixOf s.data then some ⟨s.data.drop pre.data.length⟩ else none

/-- Embeds confirm (helpers.go) applied to one line of operator input: the
line is trimmed, lowercased, and accepted iff it then starts with y.  (The
surrounding Go loop only repeats on a read error, so a successfully read
line is decided exactly once.) -/
def confirm (line : String) : Bool :=
  goStartsWith (goToLower (goTrimSpace line)) "y"

/-! ## JSON marshalling of string-valued argument objects

The call arguments (api.ToolCallFunctionArguments) are a JSON object; the
modelled call sites only need string-valued fields, so arguments are
key-value string pairs.  Go's encoding/json marshals map keys in sorted
order. -/

def charListLe : List Char → List Char → Bool
  | [], _ => true
  | _ :: _, [] => false
  | a :: as, b :: bs => if a < b then true else if b < a then false else charListLe as bs

def insertSorted (x : String × String) : List (String × String) → List (String × String)
  | [] => [x]
  | y :: ys => if charListLe x.1.data y.1.data then x :: y :: ys else y :: insertSorted x ys

def sortByKey (l : List (String × String)) : List (String × String) :=
  l.foldr insertSorted []

def jsonEscapeChar (c : Char) : String :=
  if c = '"' then "\\\""
  else if c = '\\' then "\\\\"
  else if c = '\n' then "\\n"
  else if c = '\t' then "\\t"
  else if c = '\r' then "\\r"
  else String.singleton c

def jsonQuote (s : String) : String :=
  "\"" ++ s.data.foldl (fun acc c => acc ++ jsonEscapeChar c) "" ++ "\""

/-- Models encoding/json.Marshal on a string-valued object: compact output
with sorted keys.  This is the prettify(v, true) path of logging.go used to
build tool-call signatures. -/
def jsonMarshalCompact (args : List (String × String)) : String :=
  "\x7b" ++
    String.intercalate ","
      ((sortByKey args).map (fun kv => jsonQuote kv.1 ++ ":" ++ jsonQuote kv.2)) ++
    "\x7d"

/-- Models encoding/json.MarshalIndent(v, "", "  ") on a string-valued
object, the encoding the bare @format callback produces. -/
def jsonMarshalIndent (args : List (String × String)) : String :=
  match sortByKey args with
  | [] => "\x7b\x7d"
  | l =>
    "\x7b\n" ++
      String.intercalate ",\n"
        (l.map (fun kv => "  " ++ jsonQuote kv.1 ++ ": " ++ jsonQuote kv.2)) ++
      "\n\x7d"

/-! ## text/template, restricted to the action shape the format callback uses -/

inductive TplPart where
  | lit (c : Char)
  | field (name : String)
deriving DecidableEq, Repr

/-- Models text/template parsing for templates made of literal text and
field actions of the shape open-open dot name close-close; any other
action content, or an unterminated action, is a parse error, as in Go.
The fuel argument starts at the input length and each step consumes at
least one character, so the fuel never runs out. -/
def tplParseAux : Nat → List Char → Except String (List TplPart)
  | 0, l => if l.isEmpty then .ok [] else .error "internal: fuel exhausted"
  | _ + 1, [] => .ok []
  | fuel + 1, '\x7b' :: '\x7b' :: rest =>
    match rest with
    | '.' :: rest2 =>
      let ident := rest2.takeWhile (fun x => x ≠ '\x7d')
      match rest2.dropWhile (fun x => x ≠ '\x7d') with
      | '\x7d' :: '\x7d' :: rest3 =>
        match tplParseAux fuel rest3 with
        | .ok parts => .ok (.field ⟨ident⟩ :: parts)
        | .error e => .error e
      | _ => .error "unclosed action"
    | _ => .error "unexpected character in action"
  | fuel + 1, c :: rest =>
    match tplParseAux fuel rest with
    | .ok parts => .ok (.lit c :: parts)
    | .error e => .error e

def templateParse (tpl : String) : Except String (List TplPart) :=
  tplParseAux tpl.data.length tpl.data

/-- Models text/template execution over a string-valued map: fields are
looked up by name, a missing key renders the no-value placeholder; in this
restricted template language execution cannot fail. -/
def tplExecute (parts : List TplPart) (args : List (String × String)) : String :=
  parts.foldl
    (fun acc p =>
      match p with
      | .lit c => acc.push c
      | .field name =>
        match args.lookup name with
        | some v => acc ++ v
        | none => acc ++ "<no value>")
    ""

/-- Embeds the @format branch of checkCallbackPath (generation.go): with a
template after the equals sign the arguments are rendered through it, and a
parse failure is wrapped in the same error text shape as the Go code;
without a template the arguments are JSON-encoded with MarshalIndent. -/
def formatCallback (callbackPath : String) (args : List (String × String)) : Except String String :=
  match goCutPrefix callbackPath "@format=" with
  | some tpl =>
    match templateParse tpl with
    | .ok parts => .ok (tplExecute parts args)
    | .error e => .error ("failed to parse format for @format: " ++ e)
  | none => .ok (jsonMarshalIndent args)

/-! ## Tool dispatcher (the per-tool-call body of doGeneration) -/

/-- Embeds mcp.Tool as the dispatcher sees it: a name plus the optional
destructive-hint annotation (the Annotations pointer and DestructiveHint
pointer chain collapse to one Option). -/
structure MCPTool where
  name : String
  destructiveHint : Option Bool
deriving DecidableEq, Repr

structure MCPServer where
  serverKey : String
  tools : List MCPTool
deriving DecidableEq, Repr

/-- Embeds mcpToolFrom (config.go): the first server whose tool list
contains the function name.  Go iterates a map in unspecified order; the
embedding fixes the list order, which none of the verified claims depend
on. -/
def mcpToolFrom (servers : List MCPServer) (fnName : String) : Option (String × MCPTool) :=
  servers.findSome?
    (fun sv => (sv.tools.find? (fun t => t.name == fnName)).map (fun t => (sv.serverKey, t)))

/-- One generated tool call: function name plus string-valued arguments. -/
structure ToolCall where
  name : String
  args : List (String × String)
deriving DecidableEq, Repr

/-- The "name(arguments)" signature string fn built at the top of the
dispatch loop in doGeneration; prettify with the flatten flag marshals the
arguments compactly. -/
def fnSignature (call : ToolCall) : String :=
  call.name ++ "(" ++ jsonMarshalCompact call.args ++ ")"

/-- External effects one dispatch may consume, made explicit: the operator
line offered to any confirmation prompt, and the outcomes a stdin read, an
executable run, a web search, or a remote MCP call would produce. -/
structure DispatchEnv where
  confirmLine : String
  stdinResult : Except String String
  execResult : Except String String
  webSearchResult : Except String String
  remoteResult : Except String String

/-- Embeds the okToRun decision of checkCallbackPath (generation.go): the
predefined callbacks always run; an executable path asks for confirmation
iff the per-function confirm flag is set and the destructive-tools override
is not. -/
def checkCallbackOkToRun (callbackPath : String) (confirmToolCallbacks : List (String × Bool))
    (forceCallDestructiveTools : Bool) (fnName : String) (confirmLine : String) : Bool :=
  if callbackPath = "@stdin" then true
  else if goStartsWith callbackPath "@format" then true
  else if goStartsWith callbackPath "@web-search" then true
  else
    match confirmToolCallbacks.lookup fnName with
    | some confirmNeeded =>
      if confirmNeeded = true ∧ forceCallDestructiveTools = false then confirm confirmLine
      else true
    | none => true

/-- Embeds the fnCallback closure chosen by checkCallbackPath, applied
immediately: the stdin, web-search and executable outcomes come from the
environment, the format callback is computed. -/
def runCallbackPath (callbackPath : String) (env : DispatchEnv)
    (args : List (String × String)) : Except String String :=
  if callbackPath = "@stdin" then env.stdinResult
  else if goStartsWith callbackPath "@format" then formatCallback callbackPath args
  else if goStartsWith callbackPath "@web-search" then env.webSearchResult
  else env.execResult

/-- The fatal dispatch outcomes of the per-call body of doGeneration; the
loop-detected variant carries the offending call signature. -/
inductive DispatchError where
  | callbackFailed (msg : String)
  | loopDetected (fn : String)
  | mcpCallFailed (msg : String)
deriving DecidableEq, Repr

/-- Embeds the per-tool-call body of the streaming callback in doGeneration
(the dispatch of one resolved call): local callbacks are confirmation-gated
and their failures abort the attempt; a declined local callback appends the
skip notice and then the decline notice; remote calls are guarded by the
history loop scan and the destructive-hint confirmation; every non-error
outcome appends user-role messages to the history. -/
def dispatchOneCall
    (localToolCallbacks : List (String × String))
    (confirmToolCallbacks : List (String × Bool))
    (mcpServers : List MCPServer)
    (forceCallDestructiveTools : Bool)
    (env : DispatchEnv)
    (history : List Message)
    (call : ToolCall) : Except DispatchError (List Message) :=
  match localToolCallbacks.lookup call.name with
  | some callbackPath =>
    if checkCallbackOkToRun callbackPath confirmToolCallbacks forceCallDestructiveTools
        call.name env.confirmLine then
      match runCallbackPath callbackPath env call.args with
      | .ok res =>
        .ok (history ++
          [⟨"user", "Result of function '" ++ fnSignature call ++ "':\n\n" ++ res⟩])
      | .error e => .error (.callbackFailed ("tool callback failed: " ++ e))
    else
      .ok (appendUserMessageToPastGenerations history
            ("Skipped execution of callback '" ++ callbackPath ++ "' for function '" ++
              fnSignature call ++ "'.\n") ++
        [⟨"user", "User chose not to call function '" ++ fnSignature call ++ "'."⟩])
  | none =>
    match mcpToolFrom mcpServers call.name with
    | some (_serverKey, tool) =>
      if history.any (fun m => goContains m.content (fnSignature call)) then
        .error (.loopDetected (fnSignature call))
      else
        if (if tool.destructiveHint = some true ∧ forceCallDestructiveTools = false then
              confirm env.confirmLine
            else true) then
          match env.remoteResult with
          | .ok res =>
            .ok (appendUserMessageToPastGenerations history
                  ("Tool call result of '" ++ fnSignature call ++ "':\n" ++ res))
          | .error e => .error (.mcpCallFailed ("failed to call MCP tool: " ++ e))
        else
          .ok (appendUserMessageToPastGenerations history
                ("User chose not to call function '" ++ fnSignature call ++ "'."))
    | none =>
      .ok (appendUserMessageToPastGenerations history
            ("Generated tool call: " ++ fnSignature call))

/-- True iff this dispatch resolves to a local callback and its
confirmation prompt is declined (the case that appends two user messages
instead of one). -/
def isLocalDecline (localToolCallbacks : List (String × String))
    (confirmToolCallbacks : List (String × Bool)) (forceCallDestructiveTools : Bool)
    (env : DispatchEnv) (call : ToolCall) : Bool :=
  match localToolCallbacks.lookup call.name with
  | some callbackPath =>
    !(checkCallbackOkToRun callbackPath confirmToolCallbacks forceCallDestructiveTools
        call.name env.confirmLine)
  | none => false

/-! ## Stream decoder (the reasoning/content handling of the streaming callback) -/

/-- One streamed response fragment as the reasoning/content handler of
doGeneration sees it: the message role plus the Thinking and Content
fields.  Fragments carrying tool calls or images take branches the decoder
claims never reach (those branches run only when Content is empty and are
modelled by the dispatcher instead). -/
structure Fragment where
  role : String
  thinking : String
  content : String
deriving DecidableEq, Repr

/-- One unit of visible output: think markers are printed in the marker
color (FgHiGreen), thinking and content text in the text color
(FgHiWhite). -/
inductive OutChunk where
  | marker (s : String)
  | text (s : String)
deriving DecidableEq, Repr

/-- The state threaded through the streaming callback: the two Go local
booleans reasoningStarted and firstContentAfterReasoning, the transcript
printed so far, and the history being accumulated. -/
structure DecodeState where
  reasoningStarted : Bool
  firstContentAfterReasoning : Bool
  printed : List OutChunk
  pastGenerations : List Message
deriving DecidableEq, Repr

/-- Embeds one execution of the reasoning/content part of the streaming
callback in doGeneration (generation.go): the begin/end reasoning
transitions, the thinking printout, and the content printout with the
trim-after-hidden-reasoning rule.  The Go code mutates content and the flag
inside the branch; the embedding selects the same results by nesting the
conditional. -/
def decodeFragment (hideReasoning : Bool) (st : DecodeState) (f : Fragment) : DecodeState :=
  if f.role = "assistant" then
    let st1 :=
      if f.thinking ≠ "" then
        if st.reasoningStarted = false then
          let stm :=
            if hideReasoning = false then
              { st with printed := st.printed ++ [.marker "<think>\n"],
                        pastGenerations :=
                          appendModelResponseToPastGenerations st.pastGenerations "<think>\n" }
            else st
          { stm with reasoningStarted := true }
        else st
      else
        if st.reasoningStarted = true then
          let stm :=
            if hideReasoning = false then
              { st with printed := st.printed ++ [.marker "</think>\n"],
                        pastGenerations :=
                          appendModelResponseToPastGenerations st.pastGenerations "</think>\n" }
            else st
          { stm with reasoningStarted := false, firstContentAfterReasoning := true }
        else st
    let st2 :=
      if hideReasoning = false ∧ f.thinking ≠ "" then
        { st1 with printed := st1.printed ++ [.text f.thinking],
                   pastGenerations :=
                     appendModelResponseToPastGenerations st1.pastGenerations f.thinking }
      else st1
    if f.content ≠ "" then
      if hideReasoning = false ∨ st2.reasoningStarted = false then
        if hideReasoning = true ∧ st2.firstContentAfterReasoning = true then
          { st2 with firstContentAfterReasoning := false,
                     printed := st2.printed ++ [.text (goTrimSpace f.content)],
                     pastGenerations :=
                       appendModelResponseToPastGenerations st2.pastGenerations
                         (goTrimSpace f.content) }
        else
          { st2 with printed := st2.printed ++ [.text f.content],
                     pastGenerations :=
                       appendModelResponseToPastGenerations st2.pastGenerations f.content }
      else st2
    else st2
  else st

/-- Folds the decoder over an ordered fragment sequence. -/
def decodeFragments (hideReasoning : Bool) (st : DecodeState) : List Fragment → DecodeState
  | [] => st
  | f :: fs => decodeFragments hideReasoning (decodeFragment hideReasoning st f) fs

/-- The state at the start of an attempt: both flags clear, nothing printed,
empty history tail. -/
def initDecodeState : DecodeState := ⟨false, false, [], []⟩

/-- A fragment carrying only reasoning text. -/
def thinkFrag (s : String) : Fragment := ⟨"assistant", s, ""⟩

/-- A fragment carrying only content text. -/
def contentFrag (s : String) : Fragment := ⟨"assistant", "", s⟩

/-- True iff the history is non-empty and its last message has role
assistant; under this condition the buggy model-response append is the
identity (proof device, mirrors historyEndsWithUsers). -/
def historyEndsWithAssistant (history : List Message) : Bool :=
  match history.getLast? with
  | some last => last.role = "assistant"
  | none => false

/-! ## Orchestration loop: recursion decision and the shared deadline -/

/-- The per-attempt inputs doGeneration forwards unchanged into a recursive
call: the model, the options bundle (system instruction, temperature, topP,
topK, stop sequences, output scheme, think and display flags, context
window, attachment paths — all passed through verbatim and therefore kept
abstract), the prompt, and the history. -/
structure GenParams (α : Type) where
  model : String
  options : α
  prompt : String
  history : List Message

/-- Embeds the recursion decision at the bottom of doGeneration: once the
select receives the worker's result, a further request is issued iff the
attempt succeeded, recursion is enabled, and the history now ends with a
user message; the reissued request reuses every parameter and carries the
updated history. -/
def recursionStep {α : Type} (p : GenParams α) (recurseOnCallbackResults : Bool)
    (exitCode : Nat) (err : Option String) (pastGenerations : List Message) :
    Option (GenParams α) :=
  if exitCode = 0 ∧ err = none ∧ recurseOnCallbackResults = true ∧
      historyEndsWithUsers pastGenerations = true then
    some { p with history := pastGenerations }
  else none

/-- Models context.WithTimeout on the deadline component: the Go runtime
caps a child deadline at the parent's, so the effective deadline is the
minimum; an absent parent deadline (context.TODO at the outermost call)
gives now plus the timeout. -/
def withTimeoutDeadline (parent : Option Nat) (now timeoutSecs : Nat) : Nat :=
  match parent with
  | none => now + timeoutSecs
  | some d => min d (now + timeoutSecs)

/-- One generation attempt as the deadline logic sees it: when it starts,
when its worker would deliver, and what the worker would deliver (exit
code, error, and the history after the attempt's stream and dispatches). -/
structure AttemptStep where
  startTime : Nat
  finishTime : Nat
  exitCode : Nat
  err : Option String
  newHistory : List Message

inductive RunError where
  | timeout
  | generationFailed (msg : String)
deriving DecidableEq, Repr

/-- Embeds the select-and-recurse skeleton of doGeneration: each attempt
wraps the incoming context with conf.TimeoutSeconds, fails the whole run
with the distinct timeout error when its deadline fires before the worker
finishes, recurses (passing the already-deadlined context along) exactly
under the recursion condition, and otherwise returns the worker's result. -/
def runAttempts (timeoutSecs : Nat) (recurse : Bool) :
    Option Nat → List AttemptStep → Nat × Option RunError
  | _, [] => (0, none)
  | ctx, step :: rest =>
    if withTimeoutDeadline ctx step.startTime timeoutSecs < step.finishTime then
      (1, some .timeout)
    else if step.exitCode = 0 ∧ step.err = none ∧ recurse = true ∧
        historyEndsWithUsers step.newHistory = true then
      runAttempts timeoutSecs recurse
        (some (withTimeoutDeadline ctx step.startTime timeoutSecs)) rest
    else
      (step.exitCode, step.err.map RunError.generationFailed)

/-- The effective deadline of every attempt along a chain, outermost
first. -/
def attemptDeadlines (timeoutSecs : Nat) : Option Nat → List AttemptStep → List Nat
  | _, [] => []
  | ctx, step :: rest =>
    withTimeoutDeadline ctx step.startTime timeoutSecs ::
      attemptDeadlines timeoutSecs
        (some (withTimeoutDeadline ctx step.startTime timeoutSecs)) rest

/-- True iff the run reaches an attempt whose effective deadline fires
before its worker finishes. -/
def reachesDeadlineExpiry (timeoutSecs : Nat) (recurse : Bool) :
    Option Nat → List AttemptStep → Bool
  | _, [] => false
  | ctx, step :: rest =>
    if withTimeoutDeadline ctx step.startTime timeoutSecs < step.finishTime then
      true
    else if step.exitCode = 0 ∧ step.err = none ∧ recurse = true ∧
        historyEndsWithUsers step.newHistory = true then
      reachesDeadlineExpiry timeoutSecs recurse
        (some (withTimeoutDeadline ctx step.startTime timeoutSecs)) rest
    else
      false

/-! ## Startup: remote tool discovery and the duplicate-name check -/

/-- One configured MCP server as run sees it after discovery: its key (URL)
and the advertised tool names. -/
structure ServerListing where
  url : String
  toolNames : List String

/-- The externally visible actions of the startup sequence, in order:
connecting to a server and fetching its tools are network calls, and so is
the generation request that ends successful initialization. -/
inductive InitEvent where
  | mcpConnect (url : String)
  | mcpFetchTools (url : String)
  | generationRequest
deriving DecidableEq, Repr

/-- Embeds duplicated (helpers.go): scan the concatenation of the argument
lists against a growing pool and return the first value already seen. -/
def duplicatedAux (pool : List String) : List String → Option String
  | [] => none
  | v :: rest => if v ∈ pool then some v else duplicatedAux (v :: pool) rest

def duplicated (arrs : List (List String)) : Option String :=
  duplicatedAux [] arrs.flatten

/-- Embeds the MCP setup loop of run (run.go): each configured server is
connected and its tools fetched (network calls, recorded as events), then
the function names gathered so far — keysFromTools hands the local names
and every fetched server's names to duplicated — are checked; a collision
aborts run with the duplicated-function-name error, skipping the rest of
the loop and the generation request; once every server passes, the
generation request goes out. -/
def runInitAux (localNames : List String) (fetched : List (List String)) :
    List ServerListing → List InitEvent × Option String
  | [] => ([.generationRequest], none)
  | sv :: rest =>
    match duplicated (localNames :: (fetched ++ [sv.toolNames])) with
    | some v =>
      ([.mcpConnect sv.url, .mcpFetchTools sv.url],
       some ("duplicated function name in tools: '" ++ v ++ "'"))
    | none =>
      (InitEvent.mcpConnect sv.url :: InitEvent.mcpFetchTools sv.url ::
        (runInitAux localNames (fetched ++ [sv.toolNames]) rest).1,
       (runInitAux localNames (fetched ++ [sv.toolNames]) rest).2)

def runInit (localNames : List String) (servers : List ServerListing) :
    List InitEvent × Option String :=
  runInitAux localNames [] servers

end Oll

namespace Oll

/-! ## Lemmas about the Go string helpers -/

theorem dropWhile_head_not {α : Type} (p : α → Bool) (l : List α) (c : α) (t : List α)
    (h : l.dropWhile p = c :: t) : p c = false := by
  induction l with
  | nil => simp at h
  | cons a as ih =>
    rw [List.dropWhile_cons] at h
    by_cases hp : p a = true
    · rw [if_pos hp] at h
      exact ih h
    · rw [if_neg hp] at h
      injection h with h1 h2
      subst h1
      simpa using hp

theorem head?_rtrim_of_head? (l : List Char) (c : Char) (hc : goIsSpace c = false)
    (h : l.head? = some c) :
    ((l.reverse.dropWhile goIsSpace).reverse).head? = some c := by
  cases l with
  | nil => simp at h
  | cons x t =>
    simp only [List.head?_cons, Option.some.injEq] at h
    subst h
    rw [List.reverse_cons, List.dropWhile_append]
    split
    · simp [List.dropWhile_cons, hc]
    · simp [List.reverse_append]

theorem trimmed_head (l : List Char) :
    (((l.dropWhile goIsSpace).reverse.dropWhile goIsSpace).reverse).head?
      = (l.dropWhile goIsSpace).head? := by
  cases hl : l.dropWhile goIsSpace with
  | nil => simp
  | cons c t =>
    have hc : goIsSpace c = false := dropWhile_head_not goIsSpace l c t hl
    rw [head?_rtrim_of_head? (c :: t) c hc rfl]
    simp

theorem single_prefix_iff (c : Char) (xs : List Char) :
    ([c].isPrefixOf xs = true) ↔ xs.head? = some c := by
  rw [List.isPrefixOf_iff_prefix]
  cases xs with
  | nil => simp
  | cons a t =>
    constructor
    · intro h
      rcases h with ⟨s, hs⟩
      injection hs with h1 h2
      subst h1
      simp
    · intro h
      simp only [List.head?_cons, Option.some.injEq] at h
      subst h
      exact ⟨t, rfl⟩

theorem goToLowerChar_eq_y_iff (c : Char) : goToLowerChar c = 'y' ↔ c = 'y' ∨ c = 'Y' := by
  have key : ∀ n : Nat, 65 ≤ n → n ≤ 90 → (Char.ofNat (n + 32) = 'y' ↔ n = 89) := by
    intro n h1 h2
    interval_cases n <;> decide
  unfold goToLowerChar
  by_cases h : 65 ≤ c.toNat ∧ c.toNat ≤ 90
  · rw [if_pos h]
    constructor
    · intro he
      right
      have h89 : c.toNat = 89 := (key c.toNat h.1 h.2).mp he
      have hc : Char.ofNat c.toNat = Char.ofNat 89 := by rw [h89]
      rw [Char.ofNat_toNat] at hc
      rw [hc]
    · rintro (rfl | rfl)
      · exact absurd h (by decide)
      · decide
  · rw [if_neg h]
    constructor
    · intro he
      exact Or.inl he
    · rintro (rfl | rfl)
      · rfl
      · exact absurd (by decide) h

/-- Claim C10: the interactive yes/no confirmation accepts a line iff its
first non-whitespace character is y or Y (the code trims surrounding
whitespace, lowercases, and checks for a leading y); every other line, in
particular the empty line, is a decline, so confirmation gates default to
not executing the tool. -/
theorem confirm_yes_prefix (line : String) :
    (confirm line = true ↔
      ((line.data.dropWhile goIsSpace).head? = some 'y' ∨
       (line.data.dropWhile goIsSpace).head? = some 'Y')) ∧
    confirm "" = false := by
  refine ⟨?_, by decide⟩
  have hdata : (goToLower (goTrimSpace line)).data
      = ((line.data.dropWhile goIsSpace).reverse.dropWhile goIsSpace).reverse.map
          goToLowerChar := rfl
  have hy : ("y" : String).data = ['y'] := rfl
  unfold confirm goStartsWith
  rw [hy, hdata, single_prefix_iff, List.head?_map, trimmed_head]
  cases hh : (line.data.dropWhile goIsSpace).head? with
  | none => simp
  | some c =>
    simp only [Option.map_some', Option.some.injEq]
    exact goToLowerChar_eq_y_iff c

/-- Claim C2 (evidence for the code bug): appending further model-response
text to a history whose last message is assistant-role returns the history
unchanged — the text is silently dropped instead of being concatenated onto
the last message, because the Go code mutates a by-value copy of the slice
element. -/
theorem appendModelResponse_drops_text_on_assistant_tail :
    appendModelResponseToPastGenerations [⟨"assistant", "A"⟩] "B" = [⟨"assistant", "A"⟩] ∧
    (Message.mk "assistant" "A") ≠ (Message.mk "assistant" ("A" ++ "B")) := by
  exact ⟨rfl, by decide⟩

/-- Claim C8: a format callback registered with a template renders the call
arguments through it (template Category-colon-field with argument animal
renders exactly "Category: animal", and a full dispatch of such a callback
appends the rendered result); a bare @format callback JSON-encodes the
arguments instead; a malformed template makes the callback return an error
that aborts the dispatch as a fatal callback error. -/
theorem format_callback_spec :
    formatCallback "@format=Category: \x7b\x7b.category\x7d\x7d" [("category", "animal")]
      = .ok "Category: animal" ∧
    dispatchOneCall [("fmt", "@format=Category: \x7b\x7b.category\x7d\x7d")] [] [] false
        ⟨"", .ok "", .ok "", .ok "", .ok ""⟩ [] ⟨"fmt", [("category", "animal")]⟩
      = .ok [⟨"user",
          "Result of function 'fmt(\x7b\"category\":\"animal\"\x7d)':\n\nCategory: animal"⟩] ∧
    (∀ args : List (String × String),
      formatCallback "@format" args = .ok (jsonMarshalIndent args)) ∧
    (∃ e, dispatchOneCall [("fmt", "@format=Category: \x7b\x7b.category")] [] [] false
        ⟨"", .ok "", .ok "", .ok "", .ok ""⟩ [] ⟨"fmt", [("category", "animal")]⟩
      = .error (.callbackFailed e)) := by
  refine ⟨rfl, rfl, fun args => rfl, ?_⟩
  exact ⟨"tool callback failed: failed to parse format for @format: unclosed action", rfl⟩

/-- Claim C1 (counterexample): a local tool call declined at the
confirmation prompt appends TWO user-role messages — first the skip notice,
then the decline notice — not exactly one; here a dispatch from an empty
history produces a two-element history with both roles user. -/
theorem local_decline_appends_two_user_turns :
    dispatchOneCall [("mytool", "/bin/tool")] [("mytool", true)] [] false
        ⟨"n", .ok "", .ok "", .ok "", .ok ""⟩ [] ⟨"mytool", [("a", "b")]⟩
      = .ok
          [⟨"user",
            "Skipped execution of callback '/bin/tool' for function 'mytool(\x7b\"a\":\"b\"\x7d)'.\n"⟩,
           ⟨"user", "User chose not to call function 'mytool(\x7b\"a\":\"b\"\x7d)'."⟩] ∧
    ([⟨"user", "x"⟩, ⟨"user", "y"⟩] : List Message).length ≠ 1 := by
  exact ⟨rfl, by decide⟩

theorem exists_user_append (history : List Message) (c : String) :
    ∃ m : Message, m.role = "user" ∧ history ++ [Message.mk "user" c] = history ++ [m] :=
  ⟨⟨"user", c⟩, rfl, rfl⟩

/-- Claim C1 (amended): every dispatch that completes without a fatal error
appends only user-role messages to the history: exactly two of them — the
skip notice then the decline notice — when a local callback is declined at
its confirmation prompt, and exactly one in every other case (local or
remote result, remote decline, or unresolved call). -/
theorem dispatch_user_turn_count
    (L : List (String × String)) (C : List (String × Bool)) (S : List MCPServer)
    (f : Bool) (env : DispatchEnv) (history : List Message) (call : ToolCall)
    (h' : List Message)
    (h : dispatchOneCall L C S f env history call = .ok h') :
    (isLocalDecline L C f env call = true ∧
      ∃ m₁ m₂ : Message, m₁.role = "user" ∧ m₂.role = "user" ∧ h' = history ++ [m₁, m₂]) ∨
    (isLocalDecline L C f env call = false ∧
      ∃ m : Message, m.role = "user" ∧ h' = history ++ [m]) := by
  unfold dispatchOneCall at h
  cases hL : List.lookup call.name L with
  | some callbackPath =>
    rw [hL] at h
    dsimp only [] at h
    cases hok : checkCallbackOkToRun callbackPath C f call.name env.confirmLine with
    | true =>
      rw [hok] at h
      rw [if_pos rfl] at h
      cases hr : runCallbackPath callbackPath env call.args with
      | ok res =>
        rw [hr] at h
        injection h with h
        subst h
        refine Or.inr ⟨by simp [isLocalDecline, hL, hok], ?_⟩
        exact exists_user_append history _
      | error e =>
        rw [hr] at h
        simp at h
    | false =>
      rw [hok] at h
      rw [if_neg (by simp)] at h
      injection h with h
      subst h
      refine Or.inl ⟨by simp [isLocalDecline, hL, hok],
        ⟨"user", "Skipped execution of callback '" ++ callbackPath ++ "' for function '" ++
            fnSignature call ++ "'.\n"⟩,
        ⟨"user", "User chose not to call function '" ++ fnSignature call ++ "'."⟩,
        rfl, rfl, ?_⟩
      simp [appendUserMessageToPastGenerations]
  | none =>
    rw [hL] at h
    dsimp only [] at h
    cases hS : mcpToolFrom S call.name with
    | some skt =>
      obtain ⟨sk, tool⟩ := skt
      rw [hS] at h
      dsimp only [] at h
      by_cases hloop : (history.any (fun m => goContains m.content (fnSignature call))) = true
      · rw [if_pos hloop] at h
        simp at h
      · rw [if_neg hloop] at h
        cases hrun : (if tool.destructiveHint = some true ∧ f = false then
            confirm env.confirmLine else true) with
        | true =>
          rw [hrun] at h
          rw [if_pos rfl] at h
          cases hr : env.remoteResult with
          | ok res =>
            rw [hr] at h
            injection h with h
            subst h
            exact Or.inr ⟨by simp [isLocalDecline, hL], exists_user_append history _⟩
          | error e =>
            rw [hr] at h
            simp at h
        | false =>
          rw [hrun] at h
          rw [if_neg (by simp)] at h
          injection h with h
          subst h
          exact Or.inr ⟨by simp [isLocalDecline, hL], exists_user_append history _⟩
    | none =>
      rw [hS] at h
      dsimp only [] at h
      injection h with h
      subst h
      exact Or.inr ⟨by simp [isLocalDecline, hL], exists_user_append history _⟩

/-- Closed instance of the amended C1 theorem: a successful remote dispatch
from an empty history yields exactly one user-role message. -/
theorem dispatch_user_turn_count_witness :
    ∃ m : Message, m.role = "user" ∧
      ([] : List Message) ++ [m]
        = [⟨"user", "Tool call result of 'rt(\x7b\x7d)':\nok'\x7d"⟩] := by
  have h := dispatch_user_turn_count [] [] [⟨"srv", [⟨"rt", none⟩]⟩] false
    ⟨"", .ok "", .ok "", .ok "", .ok "ok'\x7d"⟩ [] ⟨"rt", []⟩
    [⟨"user", "Tool call result of 'rt(\x7b\x7d)':\nok'\x7d"⟩] rfl
  rcases h with ⟨hbad, _⟩ | ⟨_, m, hm, he⟩
  · exact absurd hbad (by decide)
  · exact ⟨m, hm, he.symm ▸ rfl⟩

theorem goContains_true_of_infix (s fn : String) (h : fn.data <:+: s.data) :
    goContains s fn = true :=
  decide_eq_true h

/-- Claim C4: before any remote invocation the dispatcher scans the history
for the call's exact signature and fails with the distinct loop-detected
error when it is found, whatever the environment would have answered (so no
remote call is consumed); consequently a second dispatch of a remote call
identical to an already-recorded one fails with the loop-detected error;
and a local callback dispatch never produces a loop-detected error. -/
theorem remote_loop_guard :
    (∀ (L : List (String × String)) (C : List (String × Bool)) (S : List MCPServer)
        (f : Bool) (env : DispatchEnv) (history : List Message) (call : ToolCall),
      List.lookup call.name L = none →
      (mcpToolFrom S call.name).isSome = true →
      history.any (fun m => goContains m.content (fnSignature call)) = true →
      dispatchOneCall L C S f env history call = .error (.loopDetected (fnSignature call))) ∧
    (∀ (L : List (String × String)) (C C2 : List (String × Bool)) (S : List MCPServer)
        (f f2 : Bool) (env env2 : DispatchEnv) (history h' : List Message) (call : ToolCall),
      List.lookup call.name L = none →
      (mcpToolFrom S call.name).isSome = true →
      dispatchOneCall L C S f env history call = .ok h' →
      dispatchOneCall L C2 S f2 env2 h' call = .error (.loopDetected (fnSignature call))) ∧
    (∀ (L : List (String × String)) (C : List (String × Bool)) (S : List MCPServer)
        (f : Bool) (env : DispatchEnv) (history : List Message) (call : ToolCall)
        (path : String) (fn' : String),
      List.lookup call.name L = some path →
      dispatchOneCall L C S f env history call ≠ .error (.loopDetected fn')) := by
  refine ⟨?_, ?_, ?_⟩
  · intro L C S f env history call hL hmcp hloop
    obtain ⟨⟨sk, tool⟩, hS⟩ := Option.isSome_iff_exists.mp hmcp
    unfold dispatchOneCall
    rw [hL]
    dsimp only []
    rw [hS]
    dsimp only []
    rw [if_pos hloop]
  · intro L C C2 S f f2 env env2 history h' call hL hmcp h
    obtain ⟨⟨sk, tool⟩, hS⟩ := Option.isSome_iff_exists.mp hmcp
    unfold dispatchOneCall at h
    rw [hL] at h
    dsimp only [] at h
    rw [hS] at h
    dsimp only [] at h
    by_cases hloop : (history.any fun m => goContains m.content (fnSignature call)) = true
    · rw [if_pos hloop] at h
      simp at h
    · rw [if_neg hloop] at h
      have key : ∃ c, h' = history ++ [Message.mk "user" c] ∧
          goContains c (fnSignature call) = true := by
        cases hrun : (if tool.destructiveHint = some true ∧ f = false then
            confirm env.confirmLine else true) with
        | true =>
          rw [hrun, if_pos rfl] at h
          cases hr : env.remoteResult with
          | ok res =>
            rw [hr] at h
            injection h with h
            exact ⟨_, h.symm,
              goContains_true_of_infix _ _
                ⟨"Tool call result of '".data, ("':\n" ++ res).data, by simp⟩⟩
          | error e =>
            rw [hr] at h
            simp at h
        | false =>
          rw [hrun, if_neg (by simp)] at h
          injection h with h
          exact ⟨_, h.symm,
            goContains_true_of_infix _ _
              ⟨"User chose not to call function '".data, "'.".data, by simp⟩⟩
      obtain ⟨c, hh', hcont⟩ := key
      subst hh'
      unfold dispatchOneCall
      rw [hL]
      dsimp only []
      rw [hS]
      dsimp only []
      rw [if_pos (by simp [List.any_append, hcont])]
  · intro L C S f env history call path fn' hL
    unfold dispatchOneCall
    rw [hL]
    dsimp only []
    cases hok : checkCallbackOkToRun path C f call.name env.confirmLine with
    | true =>
      rw [if_pos rfl]
      cases hr : runCallbackPath path env call.args with
      | ok res => simp
      | error e => simp
    | false =>
      rw [if_neg (by simp)]
      simp

/-- Closed instance of the C4 theorem: the loop guard fires on a history
already recording the identical remote signature, also right after a
successful remote dispatch, and a local dispatch whose signature is in the
history still runs without a loop error. -/
theorem remote_loop_guard_witness :
    dispatchOneCall [] [] [⟨"srv", [⟨"rt", none⟩]⟩] false
        ⟨"", .ok "", .ok "", .ok "", .error "net down"⟩
        [⟨"user", "Tool call result of 'rt(\x7b\x7d)':\nfine"⟩] ⟨"rt", []⟩
      = .error (.loopDetected (fnSignature ⟨"rt", []⟩)) ∧
    dispatchOneCall [] [] [⟨"srv", [⟨"rt", none⟩]⟩] true
        ⟨"", .ok "", .ok "", .ok "", .error "net down"⟩
        [⟨"user", "Tool call result of 'rt(\x7b\x7d)':\nfine"⟩] ⟨"rt", []⟩
      = .error (.loopDetected (fnSignature ⟨"rt", []⟩)) ∧
    dispatchOneCall [("lt", "/bin/t")] [] [] false ⟨"", .ok "", .ok "x", .ok "", .ok ""⟩
        [⟨"user", "lt(\x7b\x7d)"⟩] ⟨"lt", []⟩ ≠ .error (.loopDetected "lt(\x7b\x7d)") := by
  refine ⟨?_, ?_, ?_⟩
  · exact remote_loop_guard.1 [] [] [⟨"srv", [⟨"rt", none⟩]⟩] false
      ⟨"", .ok "", .ok "", .ok "", .error "net down"⟩
      [⟨"user", "Tool call result of 'rt(\x7b\x7d)':\nfine"⟩] ⟨"rt", []⟩ rfl rfl rfl
  · exact remote_loop_guard.2.1 [] [] [] [⟨"srv", [⟨"rt", none⟩]⟩] false true
      ⟨"", .ok "", .ok "", .ok "", .ok "fine"⟩
      ⟨"", .ok "", .ok "", .ok "", .error "net down"⟩
      [] [⟨"user", "Tool call result of 'rt(\x7b\x7d)':\nfine"⟩] ⟨"rt", []⟩ rfl rfl rfl
  · exact remote_loop_guard.2.2 [("lt", "/bin/t")] [] [] false
      ⟨"", .ok "", .ok "x", .ok "", .ok ""⟩
      [⟨"user", "lt(\x7b\x7d)"⟩] ⟨"lt", []⟩ "/bin/t" "lt(\x7b\x7d)" rfl

/-! ## Decoder lemmas -/

theorem appendModelResponse_eq_self (h : List Message) (s : String)
    (hh : historyEndsWithAssistant h = true) :
    appendModelResponseToPastGenerations h s = h := by
  unfold historyEndsWithAssistant at hh
  unfold appendModelResponseToPastGenerations
  cases hl : h.getLast? with
  | none =>
    rw [hl] at hh
    simp at hh
  | some last =>
    rw [hl] at hh
    dsimp only [] at hh
    rw [decide_eq_true_eq] at hh
    dsimp only []
    rw [if_pos hh]

theorem step_think_false_started (st : DecodeState) (t : String) (ht : t ≠ "")
    (hrs : st.reasoningStarted = true) :
    decodeFragment false st (thinkFrag t)
      = { st with printed := st.printed ++ [.text t],
                  pastGenerations :=
                    appendModelResponseToPastGenerations st.pastGenerations t } := by
  unfold decodeFragment thinkFrag
  simp [ht, hrs]

theorem step_think_false_start (st : DecodeState) (t : String) (ht : t ≠ "")
    (hrs : st.reasoningStarted = false) :
    decodeFragment false st (thinkFrag t)
      = { st with reasoningStarted := true,
                  printed := st.printed ++ [.marker "<think>\n", .text t],
                  pastGenerations :=
                    appendModelResponseToPastGenerations
                      (appendModelResponseToPastGenerations st.pastGenerations "<think>\n")
                      t } := by
  unfold decodeFragment thinkFrag
  simp [ht, hrs]

theorem step_content_false (st : DecodeState) (c : String) (hc : c ≠ "")
    (hrs : st.reasoningStarted = false) :
    decodeFragment false st (contentFrag c)
      = { st with printed := st.printed ++ [.text c],
                  pastGenerations :=
                    appendModelResponseToPastGenerations st.pastGenerations c } := by
  unfold decodeFragment contentFrag
  simp [hc, hrs]

theorem step_content_false_end (st : DecodeState) (c : String) (hc : c ≠ "")
    (hrs : st.reasoningStarted = true) :
    decodeFragment false st (contentFrag c)
      = { st with reasoningStarted := false, firstContentAfterReasoning := true,
                  printed := st.printed ++ [.marker "</think>\n", .text c],
                  pastGenerations :=
                    appendModelResponseToPastGenerations
                      (appendModelResponseToPastGenerations st.pastGenerations "</think>\n")
                      c } := by
  unfold decodeFragment contentFrag
  simp [hc, hrs]

theorem step_think_true_start (st : DecodeState) (t : String) (ht : t ≠ "")
    (hrs : st.reasoningStarted = false) :
    decodeFragment true st (thinkFrag t) = { st with reasoningStarted := true } := by
  unfold decodeFragment thinkFrag
  simp [ht, hrs]

theorem step_think_true_cont (st : DecodeState) (t : String) (ht : t ≠ "")
    (hrs : st.reasoningStarted = true) :
    decodeFragment true st (thinkFrag t) = st := by
  unfold decodeFragment thinkFrag
  simp [ht, hrs]

theorem step_content_true_after (st : DecodeState) (c : String) (hc : c ≠ "")
    (hrs : st.reasoningStarted = true) :
    decodeFragment true st (contentFrag c)
      = { st with reasoningStarted := false, firstContentAfterReasoning := false,
                  printed := st.printed ++ [.text (goTrimSpace c)],
                  pastGenerations :=
                    appendModelResponseToPastGenerations st.pastGenerations
                      (goTrimSpace c) } := by
  unfold decodeFragment contentFrag
  simp [hc, hrs]

theorem step_content_true_plain (st : DecodeState) (c : String) (hc : c ≠ "")
    (hrs : st.reasoningStarted = false) (hfc : st.firstContentAfterReasoning = false) :
    decodeFragment true st (contentFrag c)
      = { st with printed := st.printed ++ [.text c],
                  pastGenerations :=
                    appendModelResponseToPastGenerations st.pastGenerations c } := by
  unfold decodeFragment contentFrag
  simp [hc, hrs, hfc]

theorem decodeFragments_append (hr : Bool) (st : DecodeState) (a b : List Fragment) :
    decodeFragments hr st (a ++ b) = decodeFragments hr (decodeFragments hr st a) b := by
  induction a generalizing st with
  | nil => simp [decodeFragments]
  | cons f fs ih => simp [decodeFragments, ih]

theorem decode_think_false_phase (ts : List String) (st : DecodeState)
    (hall : ∀ t ∈ ts, t ≠ "") (hrs : st.reasoningStarted = true)
    (hpast : historyEndsWithAssistant st.pastGenerations = true) :
    decodeFragments false st (ts.map thinkFrag)
      = { st with printed := st.printed ++ ts.map OutChunk.text } := by
  induction ts generalizing st with
  | nil => simp [decodeFragments]
  | cons t ts ih =>
    simp only [List.map_cons, decodeFragments]
    rw [step_think_false_started st t (hall t (by simp)) hrs,
      appendModelResponse_eq_self st.pastGenerations t hpast]
    rw [ih { st with printed := st.printed ++ [OutChunk.text t] }
        (fun x hx => hall x (List.mem_cons_of_mem _ hx)) hrs hpast]
    simp

theorem decode_content_false_phase (cs : List String) (st : DecodeState)
    (hall : ∀ c ∈ cs, c ≠ "") (hrs : st.reasoningStarted = false)
    (hpast : historyEndsWithAssistant st.pastGenerations = true) :
    decodeFragments false st (cs.map contentFrag)
      = { st with printed := st.printed ++ cs.map OutChunk.text } := by
  induction cs generalizing st with
  | nil => simp [decodeFragments]
  | cons c cs ih =>
    simp only [List.map_cons, decodeFragments]
    rw [step_content_false st c (hall c (by simp)) hrs,
      appendModelResponse_eq_self st.pastGenerations c hpast]
    rw [ih { st with printed := st.printed ++ [OutChunk.text c] }
        (fun x hx => hall x (List.mem_cons_of_mem _ hx)) hrs hpast]
    simp

theorem decode_think_true_phase (ts : List String) (st : DecodeState)
    (hall : ∀ t ∈ ts, t ≠ "") (hrs : st.reasoningStarted = true) :
    decodeFragments true st (ts.map thinkFrag) = st := by
  induction ts with
  | nil => simp [decodeFragments]
  | cons t ts ih =>
    simp only [List.map_cons, decodeFragments]
    rw [step_think_true_cont st t (hall t (by simp)) hrs]
    exact ih (fun x hx => hall x (List.mem_cons_of_mem _ hx))

theorem decode_content_true_phase (cs : List String) (st : DecodeState)
    (hall : ∀ c ∈ cs, c ≠ "") (hrs : st.reasoningStarted = false)
    (hfc : st.firstContentAfterReasoning = false)
    (hpast : historyEndsWithAssistant st.pastGenerations = true) :
    decodeFragments true st (cs.map contentFrag)
      = { st with printed := st.printed ++ cs.map OutChunk.text } := by
  induction cs generalizing st with
  | nil => simp [decodeFragments]
  | cons c cs ih =>
    simp only [List.map_cons, decodeFragments]
    rw [step_content_true_plain st c (hall c (by simp)) hrs hfc,
      appendModelResponse_eq_self st.pastGenerations c hpast]
    rw [ih { st with printed := st.printed ++ [OutChunk.text c] }
        (fun x hx => hall x (List.mem_cons_of_mem _ hx)) hrs hfc hpast]
    simp

theorem count_marker_map_text (m : String) (l : List String) :
    (l.map OutChunk.text).count (OutChunk.marker m) = 0 := by
  induction l with
  | nil => simp
  | cons a l ih => simp [List.count_cons, ih]

/-- Claim C7: with reasoning visible, a fragment sequence of non-empty
reasoning chunks followed by content chunks produces the begin marker
exactly at the first reasoning fragment and the end marker exactly at the
first following fragment without reasoning text, so exactly one begin/end
marker pair fires. -/
theorem reasoning_markers_once (ts : List String) (c : String) (cs : List String)
    (hts : ts ≠ []) (hall : ∀ t ∈ ts, t ≠ "") (hc : c ≠ "") (hcs : ∀ x ∈ cs, x ≠ "") :
    (decodeFragments false initDecodeState
        (ts.map thinkFrag ++ (c :: cs).map contentFrag)).printed
      = OutChunk.marker "<think>\n" :: ts.map OutChunk.text ++
        OutChunk.marker "</think>\n" :: OutChunk.text c :: cs.map OutChunk.text ∧
    (decodeFragments false initDecodeState
        (ts.map thinkFrag ++ (c :: cs).map contentFrag)).printed.count
      (OutChunk.marker "<think>\n") = 1 ∧
    (decodeFragments false initDecodeState
        (ts.map thinkFrag ++ (c :: cs).map contentFrag)).printed.count
      (OutChunk.marker "</think>\n") = 1 := by
  cases ts with
  | nil => exact absurd rfl hts
  | cons t ts =>
    have hts' : ∀ x ∈ ts, x ≠ "" := fun x hx => hall x (List.mem_cons_of_mem _ hx)
    have e1 : decodeFragments false initDecodeState ((t :: ts).map thinkFrag)
        = ⟨true, false,
           OutChunk.marker "<think>\n" :: OutChunk.text t :: ts.map OutChunk.text,
           [⟨"assistant", "<think>\n"⟩]⟩ := by
      simp only [List.map_cons, decodeFragments]
      rw [step_think_false_start initDecodeState t (hall t (by simp)) rfl]
      exact decode_think_false_phase ts
        ⟨true, false, [OutChunk.marker "<think>\n", OutChunk.text t],
         [⟨"assistant", "<think>\n"⟩]⟩ hts' rfl rfl
    have e2 : decodeFragments false initDecodeState
        ((t :: ts).map thinkFrag ++ (c :: cs).map contentFrag)
        = ⟨false, true,
           (OutChunk.marker "<think>\n" :: OutChunk.text t :: ts.map OutChunk.text ++
             [OutChunk.marker "</think>\n", OutChunk.text c]) ++ cs.map OutChunk.text,
           [⟨"assistant", "<think>\n"⟩]⟩ := by
      rw [decodeFragments_append, e1]
      simp only [List.map_cons, decodeFragments]
      rw [step_content_false_end
        ⟨true, false,
         OutChunk.marker "<think>\n" :: OutChunk.text t :: ts.map OutChunk.text,
         [⟨"assistant", "<think>\n"⟩]⟩ c hc rfl]
      exact decode_content_false_phase cs
        ⟨false, true,
         OutChunk.marker "<think>\n" :: OutChunk.text t :: ts.map OutChunk.text ++
           [OutChunk.marker "</think>\n", OutChunk.text c],
         [⟨"assistant", "<think>\n"⟩]⟩ hcs rfl rfl
    have hmain : (decodeFragments false initDecodeState
        ((t :: ts).map thinkFrag ++ (c :: cs).map contentFrag)).printed
      = OutChunk.marker "<think>\n" :: (t :: ts).map OutChunk.text ++
        OutChunk.marker "</think>\n" :: OutChunk.text c :: cs.map OutChunk.text := by
      rw [e2]
      simp
    refine ⟨hmain, ?_, ?_⟩ <;>
      rw [hmain] <;>
      simp [List.count_cons, List.count_append, count_marker_map_text]

/-- Closed instance of the C7 theorem at a concrete reasoning-then-content
fragment sequence. -/
theorem reasoning_markers_once_witness :
    (decodeFragments false initDecodeState
        (["why", "so"].map thinkFrag ++ (["answer", "more"]).map contentFrag)).printed
      = OutChunk.marker "<think>\n" :: ["why", "so"].map OutChunk.text ++
        OutChunk.marker "</think>\n" :: OutChunk.text "answer" :: ["more"].map OutChunk.text := by
  exact (reasoning_markers_once ["why", "so"] "answer" ["more"] (by simp)
    (by decide) (by decide) (by decide)).1

/-- Claim C6 (amended): with reasoning hidden, reasoning text is never
printed and no think markers appear; the first content chunk after the
hidden reasoning block is printed with its leading AND trailing whitespace
stripped (strings.TrimSpace), and stripping then resets so later chunks
print verbatim. -/
theorem hidden_reasoning_strips (ts : List String) (c : String) (cs : List String)
    (hts : ts ≠ []) (hall : ∀ t ∈ ts, t ≠ "") (hc : c ≠ "") (hcs : ∀ x ∈ cs, x ≠ "") :
    (decodeFragments true initDecodeState
        (ts.map thinkFrag ++ (c :: cs).map contentFrag)).printed
      = OutChunk.text (goTrimSpace c) :: cs.map OutChunk.text := by
  cases ts with
  | nil => exact absurd rfl hts
  | cons t ts =>
    have hts' : ∀ x ∈ ts, x ≠ "" := fun x hx => hall x (List.mem_cons_of_mem _ hx)
    have e1 : decodeFragments true initDecodeState ((t :: ts).map thinkFrag)
        = ⟨true, false, [], []⟩ := by
      simp only [List.map_cons, decodeFragments]
      rw [step_think_true_start initDecodeState t (hall t (by simp)) rfl]
      exact decode_think_true_phase ts ⟨true, false, [], []⟩ hts' rfl
    have e2 : decodeFragments true initDecodeState
        ((t :: ts).map thinkFrag ++ (c :: cs).map contentFrag)
        = ⟨false, false, OutChunk.text (goTrimSpace c) :: cs.map OutChunk.text,
           [⟨"assistant", goTrimSpace c⟩]⟩ := by
      rw [decodeFragments_append, e1]
      simp only [List.map_cons, decodeFragments]
      rw [step_content_true_after ⟨true, false, [], []⟩ c hc rfl]
      exact decode_content_true_phase cs
        ⟨false, false, [OutChunk.text (goTrimSpace c)], [⟨"assistant", goTrimSpace c⟩]⟩
        hcs rfl rfl rfl
    rw [e2]

/-- Closed instance of the amended C6 theorem. -/
theorem hidden_reasoning_strips_witness :
    (decodeFragments true initDecodeState
        ([" r1 "].map thinkFrag ++ ([" mid ", "tail"]).map contentFrag)).printed
      = OutChunk.text (goTrimSpace " mid ") :: ["tail"].map OutChunk.text := by
  exact hidden_reasoning_strips [" r1 "] " mid " ["tail"] (by simp)
    (by decide) (by decide) (by decide)

/-- Claim C6 (counterexample): the code strips with strings.TrimSpace, so
the trailing whitespace of the first content chunk after a hidden reasoning
block is removed as well — the printed chunk differs from the
leading-whitespace-only stripping the claim describes. -/
theorem hidden_reasoning_trims_trailing_too :
    (decodeFragments true initDecodeState [thinkFrag "r", contentFrag " hello "]).printed
      = [OutChunk.text "hello"] ∧
    goTrimLeftSpace " hello " = "hello " ∧
    ("hello" : String) ≠ "hello " := by
  exact ⟨rfl, rfl, by decide⟩

/-! ## Recursion decision (C3) -/

/-- Claim C3: after an attempt completes successfully, exactly one further
recursive request is issued iff recursion is enabled and the most recently
appended history message has role user (an empty history never triggers
recursion); the recursive request carries the same model, options and
prompt, with the updated history. -/
theorem recursion_decision {α : Type} (p : GenParams α) (recurse : Bool)
    (exitCode : Nat) (err : Option String) (updatedHistory : List Message)
    (hdone : exitCode = 0 ∧ err = none) :
    ((recursionStep p recurse exitCode err updatedHistory).isSome = true ↔
      (recurse = true ∧ historyEndsWithUsers updatedHistory = true)) ∧
    (∀ q : GenParams α, recursionStep p recurse exitCode err updatedHistory = some q →
      q.model = p.model ∧ q.options = p.options ∧ q.prompt = p.prompt ∧
      q.history = updatedHistory) ∧
    historyEndsWithUsers [] = false := by
  obtain ⟨h0, hn⟩ := hdone
  subst h0
  subst hn
  refine ⟨?_, ?_, rfl⟩
  · unfold recursionStep
    by_cases h : recurse = true ∧ historyEndsWithUsers updatedHistory = true
    · rw [if_pos ⟨rfl, rfl, h.1, h.2⟩]
      simp [h.1, h.2]
    · rw [if_neg (fun hc => h ⟨hc.2.2.1, hc.2.2.2⟩)]
      simpa using h
  · intro q hq
    unfold recursionStep at hq
    split at hq
    · injection hq with hq
      refine ⟨?_, ?_, ?_, ?_⟩ <;> rw [← hq]
    · simp at hq

/-- Closed instance of the C3 theorem: a history ending in a user message
triggers the recursive request when recursion is on, and not when it is
off. -/
theorem recursion_decision_witness :
    (recursionStep (⟨"m", 0, "p", []⟩ : GenParams Nat) true 0 none
        [⟨"user", "r"⟩]).isSome = true ∧
    (recursionStep (⟨"m", 0, "p", []⟩ : GenParams Nat) false 0 none
        [⟨"user", "r"⟩]).isSome = false := by
  refine ⟨(recursion_decision (⟨"m", 0, "p", []⟩ : GenParams Nat) true 0 none
    [⟨"user", "r"⟩] ⟨rfl, rfl⟩).1.mpr ⟨rfl, by decide⟩, by decide⟩

/-! ## Shared deadline (C9) -/

theorem attemptDeadlines_le (timeoutSecs : Nat) (steps : List AttemptStep) :
    ∀ (d0 : Nat), ∀ x ∈ attemptDeadlines timeoutSecs (some d0) steps, x ≤ d0 := by
  induction steps with
  | nil => intro d0 x hx; simp [attemptDeadlines] at hx
  | cons step rest ih =>
    intro d0 x hx
    unfold attemptDeadlines at hx
    rcases List.mem_cons.mp hx with rfl | hx
    · exact Nat.min_le_left _ _
    · exact Nat.le_trans (ih _ x hx) (Nat.min_le_left _ _)

/-- Claim C9: the overall deadline established at the top of the outermost
call bounds every recursive sub-attempt — re-wrapping the already-deadlined
context can only shrink the effective deadline, never extend it past the
outermost one — and the run returns the distinct timeout failure exactly
when some reached sub-attempt's deadline fires before its worker
finishes. -/
theorem shared_deadline_governs (timeoutSecs : Nat) (first : AttemptStep)
    (rest : List AttemptStep) :
    (∀ d ∈ attemptDeadlines timeoutSecs none (first :: rest),
      d ≤ first.startTime + timeoutSecs) ∧
    (∀ (recurse : Bool) (ctx : Option Nat) (steps : List AttemptStep),
      runAttempts timeoutSecs recurse ctx steps = (1, some RunError.timeout) ↔
        reachesDeadlineExpiry timeoutSecs recurse ctx steps = true) := by
  constructor
  · intro d hd
    unfold attemptDeadlines at hd
    rcases List.mem_cons.mp hd with rfl | hd
    · exact Nat.le_refl _
    · exact attemptDeadlines_le timeoutSecs rest _ d hd
  · intro recurse
    intro ctx steps
    induction steps generalizing ctx with
    | nil => simp [runAttempts, reachesDeadlineExpiry]
    | cons step rest2 ih =>
      unfold runAttempts reachesDeadlineExpiry
      by_cases h1 : withTimeoutDeadline ctx step.startTime timeoutSecs < step.finishTime
      · rw [if_pos h1, if_pos h1]
        simp
      · rw [if_neg h1, if_neg h1]
        by_cases h2 : step.exitCode = 0 ∧ step.err = none ∧ recurse = true ∧
            historyEndsWithUsers step.newHistory = true
        · rw [if_pos h2, if_pos h2]
          exact ih _
        · rw [if_neg h2, if_neg h2]
          cases herr : step.err with
          | none => simp
          | some m => simp

/-- Closed instance of the C9 theorem: the second attempt's deadline is
capped at the outermost one, and a run whose second attempt outlives the
shared deadline fails with the timeout error. -/
theorem shared_deadline_governs_witness :
    (withTimeoutDeadline (some (withTimeoutDeadline none 0 100)) 10 100 ≤ 0 + 100) ∧
    runAttempts 100 true none
        [⟨0, 10, 0, none, [⟨"user", "r"⟩]⟩, ⟨10, 300, 0, none, []⟩]
      = (1, some RunError.timeout) := by
  have h := shared_deadline_governs 100 ⟨0, 10, 0, none, [⟨"user", "r"⟩]⟩
    [⟨10, 300, 0, none, []⟩]
  refine ⟨h.1 _ (by simp [attemptDeadlines, withTimeoutDeadline]), ?_⟩
  exact (h.2 true none [⟨0, 10, 0, none, [⟨"user", "r"⟩]⟩, ⟨10, 300, 0, none, []⟩]).mpr
    (by decide)

/-! ## Duplicate tool names at startup (C5) -/

theorem duplicatedAux_eq_none_iff (l : List String) :
    ∀ pool, duplicatedAux pool l = none ↔ (l.Nodup ∧ ∀ x ∈ l, x ∉ pool) := by
  induction l with
  | nil => intro pool; simp [duplicatedAux]
  | cons v rest ih =>
    intro pool
    unfold duplicatedAux
    by_cases hv : v ∈ pool
    · rw [if_pos hv]
      constructor
      · intro h; simp at h
      · rintro ⟨-, hall⟩
        exact absurd hv (hall v (by simp))
    · rw [if_neg hv]
      rw [ih (v :: pool)]
      constructor
      · rintro ⟨hnd, hall⟩
        refine ⟨List.nodup_cons.mpr ⟨?_, hnd⟩, ?_⟩
        · intro hvr
          exact (hall v hvr) (List.mem_cons_self v pool)
        · intro x hx
          rcases List.mem_cons.mp hx with rfl | hx2
          · exact hv
          · intro hxp
            exact (hall x hx2) (List.mem_cons_of_mem _ hxp)
      · rintro ⟨hnd, hall⟩
        obtain ⟨hvn, hnd2⟩ := List.nodup_cons.mp hnd
        refine ⟨hnd2, ?_⟩
        intro x hx hxvp
        rcases List.mem_cons.mp hxvp with rfl | hxp
        · exact hvn hx
        · exact (hall x (List.mem_cons_of_mem _ hx)) hxp

theorem duplicated_eq_none_iff (arrs : List (List String)) :
    duplicated arrs = none ↔ arrs.flatten.Nodup := by
  unfold duplicated
  rw [duplicatedAux_eq_none_iff]
  simp

theorem runInitAux_error_no_gen (localNames : List String) :
    ∀ (servers : List ServerListing) (fetched : List (List String)),
      (runInitAux localNames fetched servers).2 ≠ none →
      InitEvent.generationRequest ∉ (runInitAux localNames fetched servers).1 := by
  intro servers
  induction servers with
  | nil =>
    intro fetched h
    simp [runInitAux] at h
  | cons sv rest ih =>
    intro fetched h
    unfold runInitAux at h ⊢
    cases hd : duplicated (localNames :: (fetched ++ [sv.toolNames])) with
    | some v =>
      dsimp only [] at h ⊢
      simp
    | none =>
      rw [hd] at h
      dsimp only [] at h ⊢
      have hrec := ih (fetched ++ [sv.toolNames]) h
      simp only [List.mem_cons]
      rintro (hbad | hbad | hbad)
      · exact absurd hbad (by simp)
      · exact absurd hbad (by simp)
      · exact hrec hbad

theorem runInitAux_finds_dup (localNames : List String) :
    ∀ (servers : List ServerListing) (fetched : List (List String)),
      servers ≠ [] →
      ¬ (localNames ::
          (fetched ++ servers.map ServerListing.toolNames)).flatten.Nodup →
      (runInitAux localNames fetched servers).2 ≠ none := by
  intro servers
  induction servers with
  | nil =>
    intro fetched hne
    exact absurd rfl hne
  | cons sv rest ih =>
    intro fetched hne hnd
    unfold runInitAux
    cases hd : duplicated (localNames :: (fetched ++ [sv.toolNames])) with
    | some v =>
      dsimp only []
      simp
    | none =>
      dsimp only []
      cases rest with
      | nil =>
        exfalso
        rw [duplicated_eq_none_iff] at hd
        exact hnd (by simpa using hd)
      | cons r rest2 =>
        exact ih (fetched ++ [sv.toolNames]) (by simp)
          (fun hnod => hnd (by simpa using hnod))

theorem runInitAux_ok (localNames : List String) :
    ∀ (servers : List ServerListing) (fetched : List (List String)),
      (localNames :: (fetched ++ servers.map ServerListing.toolNames)).flatten.Nodup →
      (runInitAux localNames fetched servers).2 = none ∧
      InitEvent.generationRequest ∈ (runInitAux localNames fetched servers).1 := by
  intro servers
  induction servers with
  | nil =>
    intro fetched hnd
    simp [runInitAux]
  | cons sv rest ih =>
    intro fetched hnd
    unfold runInitAux
    have hsplit : (localNames :: (fetched ++ (sv :: rest).map ServerListing.toolNames)).flatten
        = (localNames :: (fetched ++ [sv.toolNames])).flatten ++
          (rest.map ServerListing.toolNames).flatten := by
      simp
    have hpre : duplicated (localNames :: (fetched ++ [sv.toolNames])) = none := by
      rw [duplicated_eq_none_iff]
      exact List.Nodup.of_append_left (hsplit ▸ hnd)
    rw [hpre]
    dsimp only []
    have hih := ih (fetched ++ [sv.toolNames]) (by simpa using hnd)
    exact ⟨hih.1, by simp [hih.2]⟩

/-- Claim C5 (amended): any duplicate among the gathered function names —
the local ones together with every discovered server's — makes
initialization fail with the duplicated-function-name error (non-zero exit)
before any generation request is issued, though the MCP connect and
tool-fetch network calls needed to discover remote names have already
happened by then; when all names are pairwise distinct, no duplicate error
is raised and the generation request goes out. -/
theorem duplicate_names_abort_before_generation :
    (∀ (localNames : List String) (servers : List ServerListing),
      (runInit localNames servers).2 ≠ none →
      InitEvent.generationRequest ∉ (runInit localNames servers).1) ∧
    (∀ (localNames : List String) (servers : List ServerListing),
      servers ≠ [] →
      ¬ (localNames :: servers.map ServerListing.toolNames).flatten.Nodup →
      (runInit localNames servers).2 ≠ none) ∧
    (∀ (localNames : List String) (servers : List ServerListing),
      (localNames :: servers.map ServerListing.toolNames).flatten.Nodup →
      (runInit localNames servers).2 = none ∧
      InitEvent.generationRequest ∈ (runInit localNames servers).1) := by
  refine ⟨?_, ?_, ?_⟩
  · intro l s h
    exact runInitAux_error_no_gen l s [] h
  · intro l s hne hnd
    exact runInitAux_finds_dup l s [] hne (by simpa using hnd)
  · intro l s hnd
    exact runInitAux_ok l s [] (by simpa using hnd)

/-- Closed instance of the amended C5 theorem: a name shared by the local
tools and one server aborts the run without a generation request, while
distinct names let the generation request through. -/
theorem duplicate_names_abort_witness :
    (runInit ["f"] [⟨"u", ["f"]⟩]).2 ≠ none ∧
    InitEvent.generationRequest ∉ (runInit ["f"] [⟨"u", ["f"]⟩]).1 ∧
    (runInit ["f"] [⟨"u", ["g"]⟩]).2 = none := by
  have h := duplicate_names_abort_before_generation
  refine ⟨?_, ?_, ?_⟩
  · exact h.2.1 ["f"] [⟨"u", ["f"]⟩] (by simp) (by simp)
  · exact h.1 ["f"] [⟨"u", ["f"]⟩] (h.2.1 ["f"] [⟨"u", ["f"]⟩] (by simp) (by simp))
  · exact (h.2.2 ["f"] [⟨"u", ["g"]⟩] (by simp)).1

/-- Claim C5 (counterexample): the duplicate-name failure is raised only
after the MCP connect and tool-fetch network calls for the colliding
server — the failing run's event list is non-empty and consists of network
calls, refuting a failure before any network call. -/
theorem duplicate_check_after_network_calls :
    runInit ["f"] [⟨"u", ["f"]⟩]
      = ([.mcpConnect "u", .mcpFetchTools "u"],
         some "duplicated function name in tools: 'f'") ∧
    (runInit ["f"] [⟨"u", ["f"]⟩]).1 ≠ [] := by
  exact ⟨rfl, by decide⟩

end Oll
